import Mathlib

/-!
Shallow embedding of the `Gp2Dcp` reduction (log-log convex programs to
convex programs) and its atom-canonicalizer registry, together with proofs
of the specified properties.

Sources embedded:
- `cvxpy/reductions/gp2dcp/gp2dcp.py` (`Gp2Dcp.accepts`, `Gp2Dcp.apply`,
  `Gp2Dcp.invert`)
- `cvxpy/reductions/gp2dcp/atom_canonicalizers/__init__.py`
  (`CANON_METHODS`, `DgpCanonMethods`)

The generic rewrite engine (`Canonicalization`), the problem/solution
primitives (`unpack`, `_clear_solution`, `objective.value`) and the status
constants live outside the given slice; where a claim depends on them they
are modelled from the spec, and each such definition says so in its doc
comment.  Python's in-place mutation of the original problem object is
modelled by explicit state passing: `apply` and `invert` return the final
state of the original problem alongside their result.
-/

/-- Expression-node kinds.  The first group are the keys of the static
rewrite table `CANON_METHODS` (one per atom class appearing in the source
dict, plus the two piecewise-linear atoms installed from `PWL_METHODS`);
`var` is the `Variable` leaf kind; the last group are atom kinds the table
does not support (the source's TODO list: sum_smallest, minimum, cumsum). -/
inductive Kind where
  | addExpression
  | constant
  | divExpression
  | exp
  | eye_minus_inv
  | geo_mean
  | log
  | mulExpression
  | multiply
  | one_minus
  | pnorm
  | power
  | trace
  | maximum
  | sum_largest
  | var
  | sum_smallest
  | minimum
  | cumsum
deriving DecidableEq

/-- Data of a `Variable` leaf: stable identifier, shape, and whether the
positivity attribute (`pos=True` / `nonneg=True`) is set. -/
structure VarData where
  id : Nat
  shape : List Nat
  pos : Bool
deriving DecidableEq

/-- An expression tree: a `Variable` leaf or an atom node with a kind and
an ordered list of argument subtrees. -/
inductive Expr where
  | var (v : VarData)
  | node (k : Kind) (args : List Expr)

/-- A constraint: relates `lhs` and `rhs`; `args` is its current argument
list (by default the single canonical `lhs - rhs` expression, but
`Gp2Dcp.apply` transiently replaces it with `[lhs, rhs]`); `old_args`
models the transient `_old_args` attribute that `Gp2Dcp.apply` sets while
the restructuring is in force (`none` when the attribute is absent). -/
structure Constr where
  id : Nat
  lhs : Expr
  rhs : Expr
  args : List Expr
  old_args : Option (List Expr)

/-- Reference to a rewrite rule, as stored in (or produced by lookup on)
the rule table.  `staticRule k` is the module-level canon function
registered for kind `k` in the source dict (e.g. `add_canon`);
`pwlRule k` is the entry copied from the piecewise-linear table
(`PWL_METHODS`); `variableCanon` is the bound method
`DgpCanonMethods.variable_canon` of the instance being queried. -/
inductive RuleRef where
  | staticRule (k : Kind)
  | pwlRule (k : Kind)
  | variableCanon
deriving DecidableEq

/-- The static rewrite table from the source
(`CANON_METHODS = { AddExpression: add_canon, ..., Variable: None }`
followed by `CANON_METHODS[maximum] = PWL_METHODS[maximum]` and
`CANON_METHODS[sum_largest] = PWL_METHODS[sum_largest]`).
`some (some r)` means the key maps to rule `r`; `some none` means the key
is present but maps to Python's `None` (only `Variable`); `none` means the
key is absent from the dict. -/
def CANON_METHODS : Kind → Option (Option RuleRef)
  | .addExpression => some (some (.staticRule .addExpression))
  | .constant => some (some (.staticRule .constant))
  | .divExpression => some (some (.staticRule .divExpression))
  | .exp => some (some (.staticRule .exp))
  | .eye_minus_inv => some (some (.staticRule .eye_minus_inv))
  | .geo_mean => some (some (.staticRule .geo_mean))
  | .log => some (some (.staticRule .log))
  | .mulExpression => some (some (.staticRule .mulExpression))
  | .multiply => some (some (.staticRule .multiply))
  | .one_minus => some (some (.staticRule .one_minus))
  | .pnorm => some (some (.staticRule .pnorm))
  | .power => some (some (.staticRule .power))
  | .trace => some (some (.staticRule .trace))
  | .maximum => some (some (.pwlRule .maximum))
  | .sum_largest => some (some (.pwlRule .sum_largest))
  | .var => some none
  | .sum_smallest => none
  | .minimum => none
  | .cumsum => none

/-- Errors arising during the canonicalization walk:
`unsupportedAtomKind k` is the `KeyError` raised by
`DgpCanonMethods.__getitem__` when `CANON_METHODS[key]` misses
(spec name: `UnsupportedAtomKind`); `noneRuleInvoked k` marks the
(unreachable, see C9) branch in which the engine would call a `None`
table entry as if it were a rule. -/
inductive CanonError where
  | unsupportedAtomKind (k : Kind)
  | noneRuleInvoked (k : Kind)
deriving DecidableEq

/-- First-match association lookup used to model the `_variables` dict of
`DgpCanonMethods` (keys are original-variable identifiers, per the spec's
description of the substitution cache). -/
def lookupVar : List (Nat × VarData) → Nat → Option VarData
  | [], _ => none
  | (j, w) :: rest, i => if j = i then some w else lookupVar rest i

/-- State of a `DgpCanonMethods` instance: the contents of the `dict`
superclass (whatever `*args, **kwargs` populated it with) and the
`_variables` substitution cache mapping original-variable identifiers to
their minted log-space variables. -/
structure DgpCanonMethods where
  dictEntries : List (Kind × Option RuleRef)
  variables_ : List (Nat × VarData)
deriving DecidableEq

/-- A fresh instance, as constructed by `DgpCanonMethods()` in
`Gp2Dcp.apply`: empty `dict` contents and an empty `_variables` cache. -/
def DgpCanonMethodsInit : DgpCanonMethods :=
  { dictEntries := [], variables_ := [] }

/-- Membership test of the source's `DgpCanonMethods.__contains__`: a key
is reported present iff it is a key of the static `CANON_METHODS` table;
the instance's own dict entries are never consulted. -/
def DgpCanonMethods.contains (m : DgpCanonMethods) (k : Kind) : Bool :=
  (CANON_METHODS k).isSome

/-- Lookup of the source's `DgpCanonMethods.__getitem__`: the `Variable`
kind is intercepted and resolved to the instance's `variable_canon`
method; every other kind is looked up in the static table, a missing key
raising `KeyError` (`unsupportedAtomKind`). -/
def DgpCanonMethods.getitem (m : DgpCanonMethods) (k : Kind) :
    Except CanonError (Option RuleRef) :=
  if k = Kind.var then
    Except.ok (some RuleRef.variableCanon)
  else
    match CANON_METHODS k with
    | some v => Except.ok v
    | none => Except.error (CanonError.unsupportedAtomKind k)

/-- The source's `DgpCanonMethods.variable_canon`: if the original
variable is already in the `_variables` cache, return the cached log-space
variable with no extra constraints and leave the state unchanged;
otherwise mint `Variable(expr.shape, var_id=expr.id)` (same identifier,
same shape, default attributes, hence no positivity), record it, and
return it with no extra constraints.  The updated instance state is
returned alongside the result. -/
def DgpCanonMethods.variable_canon (m : DgpCanonMethods) (expr : VarData) :
    (VarData × List Constr) × DgpCanonMethods :=
  match lookupVar m.variables_ expr.id with
  | some v => ((v, []), m)
  | none =>
    let log_variable : VarData := { id := expr.id, shape := expr.shape, pos := false }
    ((log_variable, []),
     { m with variables_ := m.variables_ ++ [(expr.id, log_variable)] })

/-- Numeric values, kept symbolic: `raw n` is an opaque solver-produced
value, `exp v` is the elementwise exponential of `v` (the external numeric
kernel's `np.exp`, treated as a primitive constructor), and
`objVal obj env` is the value the original problem's objective expression
`obj` computes from the variable values `env` installed in the problem
(the external `problem.objective.value`, treated as a primitive). -/
inductive Val where
  | raw (n : Nat)
  | exp (v : Val)
  | objVal (obj : Expr) (env : List (Nat × Val))

/-- Solver statuses.  Modelled from the spec: the status constants module
is outside the given slice; the spec names optimal and optimal-inaccurate
as the solution-present statuses, infeasible and unbounded as the
infeasible-or-unbounded ones, and leaves room for other statuses
(e.g. a solver error). -/
inductive Status where
  | optimal
  | optimal_inaccurate
  | infeasible
  | unbounded
  | solver_error
deriving DecidableEq

/-- Modelled from the spec: the status constant set `s.SOLUTION_PRESENT`
(a solution is present: optimal or optimal-inaccurate). -/
def SOLUTION_PRESENT : List Status := [Status.optimal, Status.optimal_inaccurate]

/-- Modelled from the spec: the status constant set `s.INF_OR_UNB`
(infeasible or unbounded). -/
def INF_OR_UNB : List Status := [Status.infeasible, Status.unbounded]

/-- A solution: solver status, optimal value, primal values keyed by
variable identifier, and dual values (passed through uninterpreted). -/
structure Solution where
  status : Status
  opt_val : Val
  primal_vars : List (Nat × Val)
  dual_vars : List (Nat × Val)

/-- A problem: an objective to minimize and an ordered list of
constraints.  `is_dgp` records the verdict of the external discipline
checker (`problem.is_dgp()`).  `varValues` are the values currently
installed in the problem's variables and `solutionCache` is the problem's
cached solution (`problem.solution`); both belong to the external problem
class and are modelled from the spec for the inverse pass. -/
structure Problem where
  objective : Expr
  constraints : List Constr
  is_dgp : Bool
  varValues : List (Nat × Val)
  solutionCache : Option Solution

mutual
/-- Modelled from the spec: the external generic rewrite engine walks an
expression bottom-up, canonicalizing the children first and then applying
the rule the supplied table yields for the node's kind; a failing lookup
propagates.  Individual atom rule bodies are external leaf content and
are modelled as structure-preserving rewrites contributing no extra
constraints; the `Variable` kind is handled by the stateful
`variable_canon` the table lookup resolves to. -/
def canonicalize_tree (m : DgpCanonMethods) :
    Expr → Except CanonError ((Expr × List Constr) × DgpCanonMethods)
  | .var v =>
    match DgpCanonMethods.getitem m Kind.var with
    | .error e => .error e
    | .ok none => .error (.noneRuleInvoked Kind.var)
    | .ok (some RuleRef.variableCanon) =>
      let res := DgpCanonMethods.variable_canon m v
      .ok ((Expr.var res.1.1, res.1.2), res.2)
    | .ok (some _) => .ok ((Expr.var v, []), m)
  | .node k args =>
    match canonicalize_args m args with
    | .error e => .error e
    | .ok ((args', cs), m') =>
      match DgpCanonMethods.getitem m' k with
      | .error e => .error e
      | .ok none => .error (.noneRuleInvoked k)
      | .ok (some _) => .ok ((Expr.node k args', cs), m')

/-- Canonicalize a list of sibling subtrees left to right, threading the
substitution-cache state and collecting extra constraints. -/
def canonicalize_args (m : DgpCanonMethods) :
    List Expr → Except CanonError ((List Expr × List Constr) × DgpCanonMethods)
  | [] => .ok (([], []), m)
  | e :: es =>
    match canonicalize_tree m e with
    | .error err => .error err
    | .ok ((e', cs), m') =>
      match canonicalize_args m' es with
      | .error err => .error err
      | .ok ((es', cs'), m'') => .ok ((e' :: es', cs ++ cs'), m'')
end

/-- Modelled from the spec: the engine canonicalizes a constraint through
its current argument list (which `Gp2Dcp.apply` has set to `[lhs, rhs]`),
producing a new constraint object over the rewritten arguments; the
original constraint object is not modified. -/
def canonicalize_constraint (m : DgpCanonMethods) (c : Constr) :
    Except CanonError ((Constr × List Constr) × DgpCanonMethods) :=
  match canonicalize_args m c.args with
  | .error e => .error e
  | .ok ((args', cs), m') =>
    .ok (({ id := c.id, lhs := args'.getD 0 c.lhs, rhs := args'.getD 1 c.rhs,
            args := args', old_args := none }, cs), m')

/-- Canonicalize the constraints of a problem in order, threading state. -/
def canonicalize_constraints (m : DgpCanonMethods) :
    List Constr → Except CanonError ((List Constr × List Constr) × DgpCanonMethods)
  | [] => .ok (([], []), m)
  | c :: cs =>
    match canonicalize_constraint m c with
    | .error e => .error e
    | .ok ((c', extra), m') =>
      match canonicalize_constraints m' cs with
      | .error e => .error e
      | .ok ((cs', extra'), m'') => .ok ((c' :: cs', extra ++ extra'), m'')

/-- Modelled from the spec: the external generic engine
`Canonicalization.apply` rewrites the objective and every constraint with
the supplied rule table and returns the new problem together with a
generic inverse record — here the identifiers of the log-space variables
the inverse step must map solver values onto — threading the stateful
rule-table instance. -/
def Canonicalization.applyEngine (m : DgpCanonMethods) (p : Problem) :
    Except CanonError ((Problem × List Nat) × DgpCanonMethods) :=
  match canonicalize_tree m p.objective with
  | .error e => .error e
  | .ok ((obj', objCs), m1) =>
    match canonicalize_constraints m1 p.constraints with
    | .error e => .error e
    | .ok ((cs', extra), m2) =>
      .ok (({ objective := obj', constraints := cs' ++ objCs ++ extra,
              is_dgp := false, varValues := [], solutionCache := none },
            m2.variables_.map Prod.fst), m2)

/-- The inverse-mapping record produced by `Gp2Dcp.apply`: the generic
engine's record (`varIds`, the log-space variable identifiers) with the
substitution-cache instance attached (`inverse_data._canon_methods`); the
attached original problem (`inverse_data._problem`) is modelled by the
explicit problem state passed to `Gp2Dcp.invert`. -/
structure InverseData where
  varIds : List Nat
  canon_methods : DgpCanonMethods

/-- Errors raised by `Gp2Dcp.apply`: the eager discipline check
(`ValueError: The supplied problem is not log-log DCP.`, spec name
`DisciplineViolation`) or an error propagated from the engine. -/
inductive ApplyError where
  | disciplineViolation
  | engine (e : CanonError)
deriving DecidableEq

namespace Gp2Dcp

/-- The source's `Gp2Dcp.accepts`: a problem is accepted iff it is DGP. -/
def accepts (p : Problem) : Bool := p.is_dgp

/-- The relational restructuring `Gp2Dcp.apply` performs on each original
constraint before invoking the engine:
`constraint._old_args = constraint.args; constraint.args = [lhs, rhs]`. -/
def swapConstr (c : Constr) : Constr :=
  { c with old_args := some c.args, args := [c.lhs, c.rhs] }

/-- The restoration `Gp2Dcp.apply` performs on each original constraint
after the engine returns:
`constraint.args = constraint._old_args; del constraint._old_args`. -/
def restoreConstr (c : Constr) : Constr :=
  { c with args := c.old_args.getD c.args, old_args := none }

/-- The source's `Gp2Dcp.apply`, with the in-place mutation of the
original problem made explicit: the second component of the result is the
state of the original problem when the call returns or raises.  The
discipline check runs first; then every constraint is restructured; then
the engine runs with a fresh `DgpCanonMethods()`; on success the
constraints are restored and the inverse record is returned.  As in the
source, there is no handler around the engine call: when the engine
raises, the restoration loop does not run and the problem is left in its
restructured state. -/
def apply (p : Problem) : Except ApplyError (Problem × InverseData) × Problem :=
  if ¬ accepts p then
    (Except.error ApplyError.disciplineViolation, p)
  else
    let swapped : Problem := { p with constraints := p.constraints.map swapConstr }
    match Canonicalization.applyEngine DgpCanonMethodsInit swapped with
    | .error e => (Except.error (ApplyError.engine e), swapped)
    | .ok ((equiv_problem, varIds), m') =>
      let restored : Problem :=
        { swapped with constraints := swapped.constraints.map restoreConstr }
      (Except.ok (equiv_problem, { varIds := varIds, canon_methods := m' }), restored)

end Gp2Dcp

/-- Modelled from the spec: the external generic engine
`Canonicalization.invert` maps solver values back through any rules'
auxiliary variables onto the log-space variables recorded in the generic
inverse record, leaving status and optimal value unchanged. -/
def Canonicalization.invertEngine (solution : Solution) (inverse_data : InverseData) :
    Solution :=
  { solution with
    primal_vars := solution.primal_vars.filter (fun kv => inverse_data.varIds.contains kv.1) }

/-- Modelled from the spec: the external `problem.unpack(solution)`
installs the solution's primal values into the problem's variables and
caches the solution on the problem object. -/
def Problem.unpack (p : Problem) (s : Solution) : Problem :=
  { p with varValues := s.primal_vars, solutionCache := some s }

/-- Modelled from the spec: the external `problem.objective.value`
recomputes the objective from the problem's own (un-transformed)
expression tree and the values currently installed in its variables. -/
def Problem.objectiveValue (p : Problem) : Val :=
  Val.objVal p.objective p.varValues

/-- Modelled from the spec: the external `problem._clear_solution()`
clears the transient solution state so the problem retains no cached
solution. -/
def Problem.clearSolution (p : Problem) : Problem :=
  { p with solutionCache := none }

namespace Gp2Dcp

/-- The source's `Gp2Dcp.invert`, with the mutation of the original
problem (`inverse_data._problem`, here the explicit argument `p`) made
explicit in the second component of the result.  First the generic
inverse runs, then every primal value is exponentiated; if the status is
in `SOLUTION_PRESENT` the values are unpacked into the original problem,
the optimal value is recomputed there and the problem's solution state is
cleared; if the status is in `INF_OR_UNB` the optimal value itself is
exponentiated; any other status is returned as is. -/
def invert (solution : Solution) (inverse_data : InverseData) (p : Problem) :
    Solution × Problem :=
  let s1 := Canonicalization.invertEngine solution inverse_data
  let s2 : Solution :=
    { s1 with primal_vars := s1.primal_vars.map (fun kv => (kv.1, Val.exp kv.2)) }
  if s2.status ∈ SOLUTION_PRESENT then
    let p1 := p.unpack s2
    let s3 := p1.solutionCache.getD s2
    let s4 : Solution := { s3 with opt_val := p1.objectiveValue }
    (s4, p1.clearSolution)
  else if s2.status ∈ INF_OR_UNB then
    ({ s2 with opt_val := Val.exp s2.opt_val }, p)
  else
    (s2, p)

end Gp2Dcp

mutual
/-- The variable leaves of an expression, in left-to-right order. -/
def varsIn : Expr → List VarData
  | .var v => [v]
  | .node _ args => varsInList args

/-- The variable leaves of a list of expressions. -/
def varsInList : List Expr → List VarData
  | [] => []
  | e :: es => varsIn e ++ varsInList es
end

mutual
/-- The node kinds occurring in an expression (variable leaves included
as `Kind.var`). -/
def kindsIn : Expr → List Kind
  | .var _ => [Kind.var]
  | .node k args => k :: kindsInList args

/-- The node kinds occurring in a list of expressions. -/
def kindsInList : List Expr → List Kind
  | [] => []
  | e :: es => kindsIn e ++ kindsInList es
end

/-- The node kinds the engine will visit in a problem: those of the
objective and, through the restructured argument lists, those of every
constraint's `lhs` and `rhs`. -/
def problemKinds (p : Problem) : List Kind :=
  kindsIn p.objective ++
    (p.constraints.map (fun c => kindsIn c.lhs ++ kindsIn c.rhs)).flatten

/-- Well-formedness of the substitution cache: every entry's log-space
variable carries the identifier it is filed under. -/
def cacheWF (vs : List (Nat × VarData)) : Prop :=
  ∀ i w, lookupVar vs i = some w → w.id = i

/-- The variable leaves appearing anywhere in a constraint: in its
argument list and in its two operands. -/
def constrVars (c : Constr) : List VarData :=
  varsInList c.args ++ varsIn c.lhs ++ varsIn c.rhs

/-- The variable leaves appearing anywhere in a problem: in the objective
and in every constraint. -/
def problemVars (p : Problem) : List VarData :=
  varsIn p.objective ++ (p.constraints.map constrVars).flatten

/-- Example input: a problem the discipline checker accepts whose
objective contains the unsupported sum-smallest atom, with one constraint
in its default single-argument form. -/
def badObjectiveProblem : Problem :=
  { objective := Expr.node Kind.sum_smallest [Expr.var { id := 1, shape := [], pos := true }],
    constraints :=
      [{ id := 0,
         lhs := Expr.var { id := 1, shape := [], pos := true },
         rhs := Expr.node Kind.constant [],
         args := [Expr.node Kind.addExpression
                    [Expr.var { id := 1, shape := [], pos := true }]],
         old_args := none }],
    is_dgp := true, varValues := [], solutionCache := none }

/-- Example input: a well-supported DGP problem on which `apply`
succeeds. -/
def okProblem : Problem :=
  { objective := Expr.var { id := 1, shape := [], pos := true },
    constraints :=
      [{ id := 0,
         lhs := Expr.var { id := 1, shape := [], pos := true },
         rhs := Expr.node Kind.constant [],
         args := [Expr.node Kind.addExpression
                    [Expr.var { id := 1, shape := [], pos := true }]],
         old_args := none }],
    is_dgp := true, varValues := [], solutionCache := none }

/-- Example input: a problem the discipline checker accepts whose single
constraint's left-hand side contains the unsupported minimum atom. -/
def badConstraintProblem : Problem :=
  { objective := Expr.var { id := 2, shape := [], pos := true },
    constraints :=
      [{ id := 0,
         lhs := Expr.node Kind.minimum [Expr.var { id := 2, shape := [], pos := true }],
         rhs := Expr.node Kind.constant [],
         args := [Expr.node Kind.addExpression
                    [Expr.var { id := 2, shape := [], pos := true }]],
         old_args := none }],
    is_dgp := true, varValues := [], solutionCache := none }

section Claims

/-- Helper fact: the generic inverse step and the exponentiation loop
change only the primal values, so the solution entering the status
dispatch of `Gp2Dcp.invert` has the status and optimal value of the
input solution. -/
theorem invertEngine_preserves (sol : Solution) (inv : InverseData) :
    (Canonicalization.invertEngine sol inv).status = sol.status ∧
    (Canonicalization.invertEngine sol inv).opt_val = sol.opt_val ∧
    (Canonicalization.invertEngine sol inv).dual_vars = sol.dual_vars :=
  ⟨rfl, rfl, rfl⟩

/-- C3: for a solution whose solver status is infeasible or unbounded with
raw log-space optimal value `v`, `invert` returns a solution with optimal
value `exp v` (and the input's status), and the original problem object is
not touched: no variable values are installed into it. -/
theorem claim_C3 (sol : Solution) (inverse_data : InverseData) (p : Problem)
    (h : sol.status ∈ INF_OR_UNB) :
    (Gp2Dcp.invert sol inverse_data p).1.opt_val = Val.exp sol.opt_val ∧
    (Gp2Dcp.invert sol inverse_data p).1.status = sol.status ∧
    (Gp2Dcp.invert sol inverse_data p).2 = p := by
  have hst : sol.status = Status.infeasible ∨ sol.status = Status.unbounded := by
    simpa [INF_OR_UNB] using h
  rcases hst with hst | hst <;>
    simp [Gp2Dcp.invert, Canonicalization.invertEngine, SOLUTION_PRESENT, INF_OR_UNB, hst]

/-- Witness for C3 at a concrete infeasible solution. -/
theorem claim_C3_witness :
    (Gp2Dcp.invert
        { status := Status.infeasible, opt_val := Val.raw 5, primal_vars := [],
          dual_vars := [] }
        { varIds := [], canon_methods := DgpCanonMethodsInit }
        { objective := Expr.node Kind.constant [], constraints := [], is_dgp := true,
          varValues := [], solutionCache := none }).1.opt_val = Val.exp (Val.raw 5) :=
  (claim_C3
    { status := Status.infeasible, opt_val := Val.raw 5, primal_vars := [], dual_vars := [] }
    { varIds := [], canon_methods := DgpCanonMethodsInit }
    { objective := Expr.node Kind.constant [], constraints := [], is_dgp := true,
      varValues := [], solutionCache := none }
    (List.mem_cons_self _ _)).1

/-- C4: when the discipline check rejects the problem, `apply` raises the
discipline-violation error and the problem is returned exactly as it was:
no constraint was touched. -/
theorem claim_C4 (p : Problem) (h : Gp2Dcp.accepts p = false) :
    Gp2Dcp.apply p = (Except.error ApplyError.disciplineViolation, p) := by
  simp [Gp2Dcp.apply, h]

/-- Witness for C4 at a concrete non-DGP problem. -/
theorem claim_C4_witness :
    Gp2Dcp.apply
        { objective := Expr.node Kind.constant [], constraints := [], is_dgp := false,
          varValues := [], solutionCache := none } =
      (Except.error ApplyError.disciplineViolation,
       { objective := Expr.node Kind.constant [], constraints := [], is_dgp := false,
         varValues := [], solutionCache := none }) :=
  claim_C4 _ rfl

/-- C5: for a solution-present status, `invert` installs the
exponentiated primal values into the original problem's variables, sets
the returned optimal value to the objective value the original problem
recomputes from its own expression tree over those installed values, and
clears the problem's cached solution before returning. -/
theorem claim_C5 (sol : Solution) (inverse_data : InverseData) (p : Problem)
    (h : sol.status ∈ SOLUTION_PRESENT) :
    ((Gp2Dcp.invert sol inverse_data p).2).varValues =
      (Canonicalization.invertEngine sol inverse_data).primal_vars.map
        (fun kv => (kv.1, Val.exp kv.2)) ∧
    (Gp2Dcp.invert sol inverse_data p).1.opt_val =
      Val.objVal p.objective
        ((Canonicalization.invertEngine sol inverse_data).primal_vars.map
          (fun kv => (kv.1, Val.exp kv.2))) ∧
    ((Gp2Dcp.invert sol inverse_data p).2).solutionCache = none := by
  have hst : sol.status = Status.optimal ∨ sol.status = Status.optimal_inaccurate := by
    simpa [SOLUTION_PRESENT] using h
  rcases hst with hst | hst <;>
    simp [Gp2Dcp.invert, Canonicalization.invertEngine, SOLUTION_PRESENT,
      Problem.unpack, Problem.objectiveValue, Problem.clearSolution, hst]

/-- Witness for C5 at a concrete optimal solution. -/
theorem claim_C5_witness :
    ((Gp2Dcp.invert
        { status := Status.optimal, opt_val := Val.raw 0,
          primal_vars := [(4, Val.raw 9)], dual_vars := [] }
        { varIds := [4], canon_methods := DgpCanonMethodsInit }
        { objective := Expr.var { id := 4, shape := [], pos := true }, constraints := [],
          is_dgp := true, varValues := [], solutionCache := none }).2).varValues =
      [(4, Val.exp (Val.raw 9))] :=
  (claim_C5
    { status := Status.optimal, opt_val := Val.raw 0,
      primal_vars := [(4, Val.raw 9)], dual_vars := [] }
    { varIds := [4], canon_methods := DgpCanonMethodsInit }
    { objective := Expr.var { id := 4, shape := [], pos := true }, constraints := [],
      is_dgp := true, varValues := [], solutionCache := none }
    (List.mem_cons_self _ _)).1

/-- C7: for a status that is neither solution-present nor
infeasible-or-unbounded, `invert` returns the solution unchanged apart
from the generic inverse step and the elementwise exponentiation of its
primal values; in particular the optimal value is not modified and the
original problem is not touched. -/
theorem claim_C7 (sol : Solution) (inverse_data : InverseData) (p : Problem)
    (h1 : sol.status ∉ SOLUTION_PRESENT) (h2 : sol.status ∉ INF_OR_UNB) :
    (Gp2Dcp.invert sol inverse_data p).1 =
      { Canonicalization.invertEngine sol inverse_data with
        primal_vars := (Canonicalization.invertEngine sol inverse_data).primal_vars.map
          (fun kv => (kv.1, Val.exp kv.2)) } ∧
    (Gp2Dcp.invert sol inverse_data p).1.opt_val = sol.opt_val ∧
    (Gp2Dcp.invert sol inverse_data p).2 = p := by
  have hs : (Canonicalization.invertEngine sol inverse_data).status = sol.status := rfl
  refine ⟨?_, ?_, ?_⟩ <;>
    simp [Gp2Dcp.invert, Canonicalization.invertEngine, h1, h2]

/-- Witness for C7 at a concrete solver-error solution. -/
theorem claim_C7_witness :
    (Gp2Dcp.invert
        { status := Status.solver_error, opt_val := Val.raw 3,
          primal_vars := [], dual_vars := [] }
        { varIds := [], canon_methods := DgpCanonMethodsInit }
        { objective := Expr.node Kind.constant [], constraints := [], is_dgp := true,
          varValues := [], solutionCache := none }).1.opt_val = Val.raw 3 :=
  (claim_C7
    { status := Status.solver_error, opt_val := Val.raw 3, primal_vars := [], dual_vars := [] }
    { varIds := [], canon_methods := DgpCanonMethodsInit }
    { objective := Expr.node Kind.constant [], constraints := [], is_dgp := true,
      varValues := [], solutionCache := none }
    (by simp [SOLUTION_PRESENT]) (by simp [INF_OR_UNB])).2.1

/-- C8: on a cache miss, `variable_canon` mints a fresh variable with the
original's identifier and shape and no positivity attribute, records it
in the cache, and returns it with an empty list of extra constraints. -/
theorem claim_C8 (m : DgpCanonMethods) (v : VarData)
    (h : lookupVar m.variables_ v.id = none) :
    DgpCanonMethods.variable_canon m v =
      (({ id := v.id, shape := v.shape, pos := false }, []),
       { m with variables_ :=
          m.variables_ ++ [(v.id, { id := v.id, shape := v.shape, pos := false })] }) := by
  simp [DgpCanonMethods.variable_canon, h]

/-- Witness for C8 on the fresh (empty-cache) instance. -/
theorem claim_C8_witness :
    DgpCanonMethods.variable_canon DgpCanonMethodsInit { id := 11, shape := [2], pos := true } =
      (({ id := 11, shape := [2], pos := false }, []),
       { dictEntries := [],
         variables_ := [(11, { id := 11, shape := [2], pos := false })] }) :=
  claim_C8 DgpCanonMethodsInit { id := 11, shape := [2], pos := true } rfl

/-- C9: the static table maps the Variable kind to None, yet lookup on any
instance resolves the Variable kind to the instance's `variable_canon`
method, and no lookup on any instance ever returns the None entry, so the
engine branch that would invoke a None rule is unreachable. -/
theorem claim_C9 :
    CANON_METHODS Kind.var = some none ∧
    (∀ m : DgpCanonMethods, m.getitem Kind.var = Except.ok (some RuleRef.variableCanon)) ∧
    (∀ (m : DgpCanonMethods) (k : Kind), m.getitem k ≠ Except.ok none) := by
  refine ⟨rfl, fun m => rfl, fun m k => ?_⟩
  cases k <;> simp [DgpCanonMethods.getitem, CANON_METHODS]

/-- C10: the instance `Gp2Dcp.apply` constructs starts with an empty
substitution cache and empty dict contents, and rule-kind membership and
lookup are the same on any two instances whatever their own dict entries
or caches hold — they are determined solely by the shared static table —
so one `apply` call's recorded substitutions cannot influence another
call's lookups. -/
theorem claim_C10 :
    DgpCanonMethodsInit.variables_ = [] ∧
    DgpCanonMethodsInit.dictEntries = [] ∧
    (∀ (m m' : DgpCanonMethods) (k : Kind), m.contains k = m'.contains k) ∧
    (∀ (m m' : DgpCanonMethods) (k : Kind), m.getitem k = m'.getitem k) ∧
    (∀ (m : DgpCanonMethods) (k : Kind), m.contains k = (CANON_METHODS k).isSome) :=
  ⟨rfl, rfl, fun _ _ _ => rfl, fun _ _ _ => rfl, fun _ _ => rfl⟩

end Claims

section CacheLemmas

/-- Appending entries on the right does not disturb an existing hit. -/
theorem lookupVar_append_of_some :
    ∀ (l l' : List (Nat × VarData)) (i : Nat) (w : VarData),
      lookupVar l i = some w → lookupVar (l ++ l') i = some w
  | [], _, _, _, h => by simp [lookupVar] at h
  | (j, u) :: tl, l', i, w, h => by
    by_cases hj : j = i
    · simpa [lookupVar, hj] using h
    · simp only [lookupVar, hj, if_false, List.cons_append] at h ⊢
      exact lookupVar_append_of_some tl l' i w h

/-- A fresh entry appended after a miss is found. -/
theorem lookupVar_append_right :
    ∀ (l : List (Nat × VarData)) (i : Nat) (w : VarData),
      lookupVar l i = none → lookupVar (l ++ [(i, w)]) i = some w
  | [], i, w, _ => by simp [lookupVar]
  | (j, u) :: tl, i, w, h => by
    by_cases hj : j = i
    · simp [lookupVar, hj] at h
    · simp only [lookupVar, hj, if_false] at h
      simp only [List.cons_append, lookupVar, hj, if_false]
      exact lookupVar_append_right tl i w h

/-- A hit in an appended list comes from one of the two halves. -/
theorem lookupVar_append_cases :
    ∀ (l l' : List (Nat × VarData)) (i : Nat) (w : VarData),
      lookupVar (l ++ l') i = some w →
      lookupVar l i = some w ∨ lookupVar l' i = some w
  | [], l', i, w, h => Or.inr (by simpa [lookupVar] using h)
  | (j, u) :: tl, l', i, w, h => by
    by_cases hj : j = i
    · left; simpa [lookupVar, hj] using h
    · simp only [List.cons_append, lookupVar, hj, if_false] at h
      simp only [lookupVar, hj, if_false]
      exact lookupVar_append_cases tl l' i w h

theorem cacheWF_nil : cacheWF [] := by
  intro i w h
  simp [lookupVar] at h

/-- A cache hit survives any later `variable_canon` call. -/
theorem variable_canon_mono (m : DgpCanonMethods) (v : VarData) (i : Nat) (w : VarData)
    (h : lookupVar m.variables_ i = some w) :
    lookupVar ((m.variable_canon v).2).variables_ i = some w := by
  unfold DgpCanonMethods.variable_canon
  cases hl : lookupVar m.variables_ v.id with
  | some u => simpa [hl] using h
  | none =>
    simp only [hl]
    exact lookupVar_append_of_some _ _ _ _ h

/-- The `variable_canon` call leaves the cache well-formed. -/
theorem variable_canon_wf (m : DgpCanonMethods) (v : VarData)
    (hwf : cacheWF m.variables_) :
    cacheWF ((m.variable_canon v).2).variables_ := by
  unfold DgpCanonMethods.variable_canon
  cases hl : lookupVar m.variables_ v.id with
  | some u => simp only [hl]; exact hwf
  | none =>
    simp only [hl]
    intro i w h
    rcases lookupVar_append_cases _ _ _ _ h with h' | h'
    · exact hwf i w h'
    · by_cases hij : v.id = i
      · simp [lookupVar, hij] at h'
        rw [← h']
      · simp [lookupVar, hij] at h'

/-- After any `variable_canon` call, the returned log-space variable is
found in the cache under its own identifier. -/
theorem variable_canon_self (m : DgpCanonMethods) (v : VarData)
    (hwf : cacheWF m.variables_) :
    lookupVar ((m.variable_canon v).2).variables_ (((m.variable_canon v).1.1).id) =
      some ((m.variable_canon v).1.1) := by
  unfold DgpCanonMethods.variable_canon
  cases hl : lookupVar m.variables_ v.id with
  | some u =>
    have hu : u.id = v.id := hwf _ _ hl
    simp only [hl, hu]
  | none =>
    simp only [hl]
    exact lookupVar_append_right _ _ _ hl

end CacheLemmas

section EngineLemmas

/-- Lookup on any instance never yields the table's None entry. -/
theorem getitem_never_none (m : DgpCanonMethods) (k : Kind) :
    m.getitem k ≠ Except.ok none := by
  cases k <;> simp [DgpCanonMethods.getitem, CANON_METHODS]

/-- The only error lookup can raise is the unsupported-atom-kind error for
the requested kind. -/
theorem getitem_error_kind (m : DgpCanonMethods) (k : Kind) (e : CanonError)
    (h : m.getitem k = Except.error e) : e = CanonError.unsupportedAtomKind k := by
  unfold DgpCanonMethods.getitem at h
  by_cases hk : k = Kind.var
  · simp [hk] at h
  · simp only [hk, if_false] at h
    cases hc : CANON_METHODS k with
    | some v => rw [hc] at h; exact absurd h (by simp)
    | none => rw [hc] at h; simpa using h.symm

/-- Lookup on a kind that is absent from the static table (and is not the
Variable kind) raises the unsupported-atom-kind error. -/
theorem getitem_absent (m : DgpCanonMethods) (k : Kind)
    (h1 : k ≠ Kind.var) (h2 : CANON_METHODS k = none) :
    m.getitem k = Except.error (CanonError.unsupportedAtomKind k) := by
  simp [DgpCanonMethods.getitem, h1, h2]

/-- A successful lookup means the kind is the Variable kind or a key of
the static table. -/
theorem getitem_ok_supported (m : DgpCanonMethods) (k : Kind) (r : Option RuleRef)
    (h : m.getitem k = Except.ok r) :
    k = Kind.var ∨ (CANON_METHODS k).isSome := by
  by_cases hk : k = Kind.var
  · exact Or.inl hk
  · right
    unfold DgpCanonMethods.getitem at h
    simp only [hk, if_false] at h
    cases hc : CANON_METHODS k with
    | some v => simp [hc]
    | none => rw [hc] at h; exact absurd h (by simp)

mutual
/-- A cache hit established before canonicalizing a subtree still holds in
the state the canonicalization returns. -/
theorem canonicalize_tree_mono (m : DgpCanonMethods) (e : Expr)
    (r : (Expr × List Constr) × DgpCanonMethods)
    (h : canonicalize_tree m e = Except.ok r) (i : Nat) (w : VarData)
    (hw : lookupVar m.variables_ i = some w) :
    lookupVar (r.2).variables_ i = some w := by
  cases e with
  | var v =>
    have h' : (Except.ok ((Expr.var ((m.variable_canon v).1.1), (m.variable_canon v).1.2),
        (m.variable_canon v).2) : Except CanonError _) = Except.ok r := h
    simp only [Except.ok.injEq] at h'
    rw [← h']
    exact variable_canon_mono m v i w hw
  | node k args =>
    rw [canonicalize_tree] at h
    cases ha : canonicalize_args m args with
    | error e0 => rw [ha] at h; exact Except.noConfusion h
    | ok res =>
      obtain ⟨⟨args', cs⟩, m'⟩ := res
      rw [ha] at h
      dsimp only at h
      cases hg : DgpCanonMethods.getitem m' k with
      | error e0 => rw [hg] at h; exact Except.noConfusion h
      | ok ro =>
        rw [hg] at h
        cases ro with
        | none => exact Except.noConfusion h
        | some rr =>
          dsimp only at h
          simp only [Except.ok.injEq] at h
          rw [← h]
          exact canonicalize_args_mono m args ((args', cs), m') ha i w hw

/-- A cache hit established before canonicalizing a list of subtrees still
holds in the state the canonicalization returns. -/
theorem canonicalize_args_mono (m : DgpCanonMethods) (es : List Expr)
    (r : (List Expr × List Constr) × DgpCanonMethods)
    (h : canonicalize_args m es = Except.ok r) (i : Nat) (w : VarData)
    (hw : lookupVar m.variables_ i = some w) :
    lookupVar (r.2).variables_ i = some w := by
  cases es with
  | nil =>
    simp only [canonicalize_args, Except.ok.injEq] at h
    rw [← h]
    exact hw
  | cons e es =>
    rw [canonicalize_args] at h
    cases he : canonicalize_tree m e with
    | error err => rw [he] at h; exact Except.noConfusion h
    | ok res1 =>
      obtain ⟨⟨e', cs⟩, m'⟩ := res1
      rw [he] at h
      dsimp only at h
      cases hes : canonicalize_args m' es with
      | error err => rw [hes] at h; exact Except.noConfusion h
      | ok res2 =>
        obtain ⟨⟨es', cs'⟩, m''⟩ := res2
        rw [hes] at h
        dsimp only at h
        simp only [Except.ok.injEq] at h
        rw [← h]
        exact canonicalize_args_mono m' es ((es', cs'), m'') hes i w
          (canonicalize_tree_mono m e ((e', cs), m') he i w hw)
end

end EngineLemmas

mutual
/-- Canonicalizing a subtree keeps the cache well-formed, and every
variable leaf of the rewritten subtree is the cache's entry for its own
identifier in the returned state. -/
theorem canonicalize_tree_vars (m : DgpCanonMethods) (e : Expr)
    (r : (Expr × List Constr) × DgpCanonMethods)
    (h : canonicalize_tree m e = Except.ok r) (hwf : cacheWF m.variables_) :
    cacheWF (r.2).variables_ ∧
    ∀ w ∈ varsIn r.1.1, lookupVar (r.2).variables_ w.id = some w := by
  cases e with
  | var v =>
    have h' : (Except.ok ((Expr.var ((m.variable_canon v).1.1), (m.variable_canon v).1.2),
        (m.variable_canon v).2) : Except CanonError _) = Except.ok r := h
    simp only [Except.ok.injEq] at h'
    rw [← h']
    refine ⟨variable_canon_wf m v hwf, ?_⟩
    intro w hwmem
    simp only [varsIn, List.mem_singleton] at hwmem
    rw [hwmem]
    exact variable_canon_self m v hwf
  | node k args =>
    rw [canonicalize_tree] at h
    cases ha : canonicalize_args m args with
    | error e0 => rw [ha] at h; exact Except.noConfusion h
    | ok res =>
      obtain ⟨⟨args', cs⟩, m'⟩ := res
      rw [ha] at h
      dsimp only at h
      cases hg : DgpCanonMethods.getitem m' k with
      | error e0 => rw [hg] at h; exact Except.noConfusion h
      | ok ro =>
        rw [hg] at h
        cases ro with
        | none => exact Except.noConfusion h
        | some rr =>
          dsimp only at h
          simp only [Except.ok.injEq] at h
          rw [← h]
          have ih := canonicalize_args_vars m args ((args', cs), m') ha hwf
          exact ⟨ih.1, fun w hw => ih.2 w hw⟩

/-- Canonicalizing a list of subtrees keeps the cache well-formed, and
every variable leaf of the rewritten subtrees is the cache's entry for its
own identifier in the returned state. -/
theorem canonicalize_args_vars (m : DgpCanonMethods) (es : List Expr)
    (r : (List Expr × List Constr) × DgpCanonMethods)
    (h : canonicalize_args m es = Except.ok r) (hwf : cacheWF m.variables_) :
    cacheWF (r.2).variables_ ∧
    ∀ w ∈ varsInList r.1.1, lookupVar (r.2).variables_ w.id = some w := by
  cases es with
  | nil =>
    simp only [canonicalize_args, Except.ok.injEq] at h
    rw [← h]
    exact ⟨hwf, fun w hw => by simp [varsInList] at hw⟩
  | cons e es =>
    rw [canonicalize_args] at h
    cases he : canonicalize_tree m e with
    | error err => rw [he] at h; exact Except.noConfusion h
    | ok res1 =>
      obtain ⟨⟨e', cs⟩, m'⟩ := res1
      rw [he] at h
      dsimp only at h
      cases hes : canonicalize_args m' es with
      | error err => rw [hes] at h; exact Except.noConfusion h
      | ok res2 =>
        obtain ⟨⟨es', cs'⟩, m''⟩ := res2
        rw [hes] at h
        dsimp only at h
        simp only [Except.ok.injEq] at h
        rw [← h]
        have ih1 := canonicalize_tree_vars m e ((e', cs), m') he hwf
        have ih2 := canonicalize_args_vars m' es ((es', cs'), m'') hes ih1.1
        refine ⟨ih2.1, ?_⟩
        intro w hw
        simp only [varsInList, List.mem_append] at hw
        rcases hw with hw | hw
        · exact canonicalize_args_mono m' es ((es', cs'), m'') hes w.id w (ih1.2 w hw)
        · exact ih2.2 w hw
end

mutual
/-- A successful canonicalization of a subtree means every kind occurring
in it is the Variable kind or a key of the static table. -/
theorem canonicalize_tree_supported (m : DgpCanonMethods) (e : Expr)
    (r : (Expr × List Constr) × DgpCanonMethods)
    (h : canonicalize_tree m e = Except.ok r) :
    ∀ k ∈ kindsIn e, k = Kind.var ∨ (CANON_METHODS k).isSome := by
  cases e with
  | var v =>
    intro k hk
    simp only [kindsIn, List.mem_singleton] at hk
    exact Or.inl hk
  | node k0 args =>
    rw [canonicalize_tree] at h
    cases ha : canonicalize_args m args with
    | error e0 => rw [ha] at h; exact Except.noConfusion h
    | ok res =>
      obtain ⟨⟨args', cs⟩, m'⟩ := res
      rw [ha] at h
      dsimp only at h
      cases hg : DgpCanonMethods.getitem m' k0 with
      | error e0 => rw [hg] at h; exact Except.noConfusion h
      | ok ro =>
        cases ro with
        | none => rw [hg] at h; exact Except.noConfusion h
        | some rr =>
          intro k hk
          simp only [kindsIn, List.mem_cons] at hk
          rcases hk with hk | hk
          · rw [hk]; exact getitem_ok_supported m' k0 (some rr) hg
          · exact canonicalize_args_supported m args ((args', cs), m') ha k hk

/-- A successful canonicalization of a list of subtrees means every kind
occurring in them is the Variable kind or a key of the static table. -/
theorem canonicalize_args_supported (m : DgpCanonMethods) (es : List Expr)
    (r : (List Expr × List Constr) × DgpCanonMethods)
    (h : canonicalize_args m es = Except.ok r) :
    ∀ k ∈ kindsInList es, k = Kind.var ∨ (CANON_METHODS k).isSome := by
  cases es with
  | nil => intro k hk; simp [kindsInList] at hk
  | cons e es =>
    rw [canonicalize_args] at h
    cases he : canonicalize_tree m e with
    | error err => rw [he] at h; exact Except.noConfusion h
    | ok res1 =>
      obtain ⟨⟨e', cs⟩, m'⟩ := res1
      rw [he] at h
      dsimp only at h
      cases hes : canonicalize_args m' es with
      | error err => rw [hes] at h; exact Except.noConfusion h
      | ok res2 =>
        intro k hk
        simp only [kindsInList, List.mem_append] at hk
        rcases hk with hk | hk
        · exact canonicalize_tree_supported m e ((e', cs), m') he k hk
        · exact canonicalize_args_supported m' es res2 hes k hk
end

mutual
/-- The only errors the canonicalization walk produces are
unsupported-atom-kind errors. -/
theorem canonicalize_tree_error_kind (m : DgpCanonMethods) (e : Expr)
    (err : CanonError) (h : canonicalize_tree m e = Except.error err) :
    ∃ k, err = CanonError.unsupportedAtomKind k := by
  cases e with
  | var v =>
    have h' : (Except.ok ((Expr.var ((m.variable_canon v).1.1), (m.variable_canon v).1.2),
        (m.variable_canon v).2) : Except CanonError _) = Except.error err := h
    exact Except.noConfusion h'
  | node k0 args =>
    rw [canonicalize_tree] at h
    cases ha : canonicalize_args m args with
    | error e0 =>
      rw [ha] at h
      dsimp only at h
      simp only [Except.error.injEq] at h
      rw [← h]
      exact canonicalize_args_error_kind m args e0 ha
    | ok res =>
      obtain ⟨⟨args', cs⟩, m'⟩ := res
      rw [ha] at h
      dsimp only at h
      cases hg : DgpCanonMethods.getitem m' k0 with
      | error e0 =>
        rw [hg] at h
        dsimp only at h
        simp only [Except.error.injEq] at h
        rw [← h]
        exact ⟨k0, getitem_error_kind m' k0 e0 hg⟩
      | ok ro =>
        cases ro with
        | none => exact absurd hg (getitem_never_none m' k0)
        | some rr => rw [hg] at h; exact Except.noConfusion h

/-- The only errors the canonicalization of a list of subtrees produces
are unsupported-atom-kind errors. -/
theorem canonicalize_args_error_kind (m : DgpCanonMethods) (es : List Expr)
    (err : CanonError) (h : canonicalize_args m es = Except.error err) :
    ∃ k, err = CanonError.unsupportedAtomKind k := by
  cases es with
  | nil => exact Except.noConfusion h
  | cons e es =>
    rw [canonicalize_args] at h
    cases he : canonicalize_tree m e with
    | error e0 =>
      rw [he] at h
      dsimp only at h
      simp only [Except.error.injEq] at h
      rw [← h]
      exact canonicalize_tree_error_kind m e e0 he
    | ok res1 =>
      obtain ⟨⟨e', cs⟩, m'⟩ := res1
      rw [he] at h
      dsimp only at h
      cases hes : canonicalize_args m' es with
      | error e0 =>
        rw [hes] at h
        dsimp only at h
        simp only [Except.error.injEq] at h
        rw [← h]
        exact canonicalize_args_error_kind m' es e0 hes
      | ok res2 =>
        obtain ⟨⟨es', cs'⟩, m''⟩ := res2
        rw [hes] at h
        exact Except.noConfusion h
end

section ProblemLemmas

/-- A successful constraint canonicalization means every kind in the
constraint's argument list is the Variable kind or a table key. -/
theorem canonicalize_constraint_supported (m : DgpCanonMethods) (c : Constr)
    (r : (Constr × List Constr) × DgpCanonMethods)
    (h : canonicalize_constraint m c = Except.ok r) :
    ∀ k ∈ kindsInList c.args, k = Kind.var ∨ (CANON_METHODS k).isSome := by
  unfold canonicalize_constraint at h
  cases ha : canonicalize_args m c.args with
  | error e0 => rw [ha] at h; exact Except.noConfusion h
  | ok res =>
    obtain ⟨⟨args', cs⟩, m'⟩ := res
    exact canonicalize_args_supported m c.args ((args', cs), m') ha

/-- The only errors constraint canonicalization produces are
unsupported-atom-kind errors. -/
theorem canonicalize_constraint_error_kind (m : DgpCanonMethods) (c : Constr)
    (err : CanonError) (h : canonicalize_constraint m c = Except.error err) :
    ∃ k, err = CanonError.unsupportedAtomKind k := by
  unfold canonicalize_constraint at h
  cases ha : canonicalize_args m c.args with
  | error e0 =>
    rw [ha] at h
    dsimp only at h
    simp only [Except.error.injEq] at h
    rw [← h]
    exact canonicalize_args_error_kind m c.args e0 ha
  | ok res =>
    obtain ⟨⟨args', cs⟩, m'⟩ := res
    rw [ha] at h
    exact Except.noConfusion h

/-- A successful canonicalization of a constraint list means every kind in
every constraint's argument list is supported. -/
theorem canonicalize_constraints_supported :
    ∀ (m : DgpCanonMethods) (cs : List Constr)
      (r : (List Constr × List Constr) × DgpCanonMethods),
      canonicalize_constraints m cs = Except.ok r →
      ∀ c ∈ cs, ∀ k ∈ kindsInList c.args, k = Kind.var ∨ (CANON_METHODS k).isSome
  | m, [], r, _, c, hc => by simp at hc
  | m, c0 :: cs, r, h, c, hc => by
    rw [canonicalize_constraints] at h
    cases hc0 : canonicalize_constraint m c0 with
    | error e0 => rw [hc0] at h; exact Except.noConfusion h
    | ok res1 =>
      obtain ⟨⟨c0', extra⟩, m'⟩ := res1
      rw [hc0] at h
      dsimp only at h
      cases hcs : canonicalize_constraints m' cs with
      | error e0 => rw [hcs] at h; exact Except.noConfusion h
      | ok res2 =>
        rcases List.mem_cons.mp hc with rfl | hc'
        · exact canonicalize_constraint_supported m c ((c0', extra), m') hc0
        · exact canonicalize_constraints_supported m' cs res2 hcs c hc'

/-- The only errors canonicalization of a constraint list produces are
unsupported-atom-kind errors. -/
theorem canonicalize_constraints_error_kind :
    ∀ (m : DgpCanonMethods) (cs : List Constr) (err : CanonError),
      canonicalize_constraints m cs = Except.error err →
      ∃ k, err = CanonError.unsupportedAtomKind k
  | m, [], err, h => Except.noConfusion h
  | m, c0 :: cs, err, h => by
    rw [canonicalize_constraints] at h
    cases hc0 : canonicalize_constraint m c0 with
    | error e0 =>
      rw [hc0] at h
      dsimp only at h
      simp only [Except.error.injEq] at h
      rw [← h]
      exact canonicalize_constraint_error_kind m c0 e0 hc0
    | ok res1 =>
      obtain ⟨⟨c0', extra⟩, m'⟩ := res1
      rw [hc0] at h
      dsimp only at h
      cases hcs : canonicalize_constraints m' cs with
      | error e0 =>
        rw [hcs] at h
        dsimp only at h
        simp only [Except.error.injEq] at h
        rw [← h]
        exact canonicalize_constraints_error_kind m' cs e0 hcs
      | ok res2 =>
        obtain ⟨⟨cs', extra'⟩, m''⟩ := res2
        rw [hcs] at h
        exact Except.noConfusion h

/-- A successful engine run means every kind of the objective and of every
constraint's argument list is supported. -/
theorem applyEngine_supported (m : DgpCanonMethods) (p : Problem)
    (r : (Problem × List Nat) × DgpCanonMethods)
    (h : Canonicalization.applyEngine m p = Except.ok r) :
    (∀ k ∈ kindsIn p.objective, k = Kind.var ∨ (CANON_METHODS k).isSome) ∧
    (∀ c ∈ p.constraints, ∀ k ∈ kindsInList c.args,
      k = Kind.var ∨ (CANON_METHODS k).isSome) := by
  unfold Canonicalization.applyEngine at h
  cases ho : canonicalize_tree m p.objective with
  | error e0 => rw [ho] at h; exact Except.noConfusion h
  | ok res1 =>
    obtain ⟨⟨obj', objCs⟩, m1⟩ := res1
    rw [ho] at h
    dsimp only at h
    cases hcs : canonicalize_constraints m1 p.constraints with
    | error e0 => rw [hcs] at h; exact Except.noConfusion h
    | ok res2 =>
      exact ⟨canonicalize_tree_supported m p.objective ((obj', objCs), m1) ho,
        canonicalize_constraints_supported m1 p.constraints res2 hcs⟩

/-- The only errors an engine run produces are unsupported-atom-kind
errors. -/
theorem applyEngine_error_kind (m : DgpCanonMethods) (p : Problem) (err : CanonError)
    (h : Canonicalization.applyEngine m p = Except.error err) :
    ∃ k, err = CanonError.unsupportedAtomKind k := by
  unfold Canonicalization.applyEngine at h
  cases ho : canonicalize_tree m p.objective with
  | error e0 =>
    rw [ho] at h
    dsimp only at h
    simp only [Except.error.injEq] at h
    rw [← h]
    exact canonicalize_tree_error_kind m p.objective e0 ho
  | ok res1 =>
    obtain ⟨⟨obj', objCs⟩, m1⟩ := res1
    rw [ho] at h
    dsimp only at h
    cases hcs : canonicalize_constraints m1 p.constraints with
    | error e0 =>
      rw [hcs] at h
      dsimp only at h
      simp only [Except.error.injEq] at h
      rw [← h]
      exact canonicalize_constraints_error_kind m1 p.constraints e0 hcs
    | ok res2 =>
      obtain ⟨⟨cs', extra⟩, m2⟩ := res2
      rw [hcs] at h
      exact Except.noConfusion h

/-- Unfolding of `Gp2Dcp.apply` on the success path: the problem ends in
the restored state and the engine's outputs are packaged with the final
cache into the inverse record. -/
theorem apply_ok_state (p : Problem) (hacc : Gp2Dcp.accepts p = true)
    (q : Problem) (ids : List Nat) (m' : DgpCanonMethods)
    (hE : Canonicalization.applyEngine DgpCanonMethodsInit
        { p with constraints := p.constraints.map Gp2Dcp.swapConstr } =
      Except.ok ((q, ids), m')) :
    Gp2Dcp.apply p =
      (Except.ok (q, { varIds := ids, canon_methods := m' }),
       { p with constraints :=
          (p.constraints.map Gp2Dcp.swapConstr).map Gp2Dcp.restoreConstr }) := by
  rw [Gp2Dcp.apply]
  simp only [hacc, not_true_eq_false, if_false, hE]

/-- Unfolding of `Gp2Dcp.apply` on the engine-failure path: the error is
wrapped and the problem is left in its restructured (swapped) state. -/
theorem apply_error_state (p : Problem) (hacc : Gp2Dcp.accepts p = true)
    (e : CanonError)
    (hE : Canonicalization.applyEngine DgpCanonMethodsInit
        { p with constraints := p.constraints.map Gp2Dcp.swapConstr } =
      Except.error e) :
    Gp2Dcp.apply p =
      (Except.error (ApplyError.engine e),
       { p with constraints := p.constraints.map Gp2Dcp.swapConstr }) := by
  rw [Gp2Dcp.apply]
  simp only [hacc, not_true_eq_false, if_false, hE]

/-- Restoring a just-swapped constraint yields the original constraint
with the transient attribute removed. -/
theorem restore_swap (c : Constr) :
    Gp2Dcp.restoreConstr (Gp2Dcp.swapConstr c) = { c with old_args := none } := by
  cases c
  simp [Gp2Dcp.swapConstr, Gp2Dcp.restoreConstr]

end ProblemLemmas

section WholeProblemLemmas

/-- The variable rule never contributes extra constraints. -/
theorem variable_canon_extras (m : DgpCanonMethods) (v : VarData) :
    (m.variable_canon v).1.2 = [] := by
  unfold DgpCanonMethods.variable_canon
  cases hl : lookupVar m.variables_ v.id <;> simp [hl]

mutual
/-- In this model no rule contributes extra constraints, so a successful
canonicalization of a subtree collects none. -/
theorem canonicalize_tree_extras (m : DgpCanonMethods) (e : Expr)
    (r : (Expr × List Constr) × DgpCanonMethods)
    (h : canonicalize_tree m e = Except.ok r) : r.1.2 = [] := by
  cases e with
  | var v =>
    have h' : (Except.ok ((Expr.var ((m.variable_canon v).1.1), (m.variable_canon v).1.2),
        (m.variable_canon v).2) : Except CanonError _) = Except.ok r := h
    simp only [Except.ok.injEq] at h'
    rw [← h']
    exact variable_canon_extras m v
  | node k args =>
    rw [canonicalize_tree] at h
    cases ha : canonicalize_args m args with
    | error e0 => rw [ha] at h; exact Except.noConfusion h
    | ok res =>
      obtain ⟨⟨args', cs⟩, m'⟩ := res
      rw [ha] at h
      dsimp only at h
      cases hg : DgpCanonMethods.getitem m' k with
      | error e0 => rw [hg] at h; exact Except.noConfusion h
      | ok ro =>
        rw [hg] at h
        cases ro with
        | none => exact Except.noConfusion h
        | some rr =>
          dsimp only at h
          simp only [Except.ok.injEq] at h
          rw [← h]
          exact canonicalize_args_extras m args ((args', cs), m') ha

/-- A successful canonicalization of a list of subtrees collects no extra
constraints. -/
theorem canonicalize_args_extras (m : DgpCanonMethods) (es : List Expr)
    (r : (List Expr × List Constr) × DgpCanonMethods)
    (h : canonicalize_args m es = Except.ok r) : r.1.2 = [] := by
  cases es with
  | nil =>
    simp only [canonicalize_args, Except.ok.injEq] at h
    rw [← h]
  | cons e es =>
    rw [canonicalize_args] at h
    cases he : canonicalize_tree m e with
    | error err => rw [he] at h; exact Except.noConfusion h
    | ok res1 =>
      obtain ⟨⟨e', cs⟩, m'⟩ := res1
      rw [he] at h
      dsimp only at h
      cases hes : canonicalize_args m' es with
      | error err => rw [hes] at h; exact Except.noConfusion h
      | ok res2 =>
        obtain ⟨⟨es', cs'⟩, m''⟩ := res2
        rw [hes] at h
        dsimp only at h
        simp only [Except.ok.injEq] at h
        rw [← h]
        have h1 : cs = [] := canonicalize_tree_extras m e ((e', cs), m') he
        have h2 : cs' = [] := canonicalize_args_extras m' es ((es', cs'), m'') hes
        dsimp only
        rw [h1, h2]
        rfl
end

/-- Canonicalizing a list of subtrees returns one rewritten subtree per
input subtree. -/
theorem canonicalize_args_length :
    ∀ (m : DgpCanonMethods) (es : List Expr)
      (r : (List Expr × List Constr) × DgpCanonMethods),
      canonicalize_args m es = Except.ok r → r.1.1.length = es.length
  | m, [], r, h => by
    simp only [canonicalize_args, Except.ok.injEq] at h
    rw [← h]
  | m, e :: es, r, h => by
    rw [canonicalize_args] at h
    cases he : canonicalize_tree m e with
    | error err => rw [he] at h; exact Except.noConfusion h
    | ok res1 =>
      obtain ⟨⟨e', cs⟩, m'⟩ := res1
      rw [he] at h
      dsimp only at h
      cases hes : canonicalize_args m' es with
      | error err => rw [hes] at h; exact Except.noConfusion h
      | ok res2 =>
        obtain ⟨⟨es', cs'⟩, m''⟩ := res2
        rw [hes] at h
        dsimp only at h
        simp only [Except.ok.injEq] at h
        rw [← h]
        have ih : es'.length = es.length :=
          canonicalize_args_length m' es ((es', cs'), m'') hes
        simp [ih]

/-- A cache hit established before canonicalizing a constraint still holds
afterwards. -/
theorem canonicalize_constraint_mono (m : DgpCanonMethods) (c : Constr)
    (r : (Constr × List Constr) × DgpCanonMethods)
    (h : canonicalize_constraint m c = Except.ok r) (i : Nat) (w : VarData)
    (hw : lookupVar m.variables_ i = some w) :
    lookupVar (r.2).variables_ i = some w := by
  unfold canonicalize_constraint at h
  cases ha : canonicalize_args m c.args with
  | error e0 => rw [ha] at h; exact Except.noConfusion h
  | ok res =>
    obtain ⟨⟨args', cs⟩, m'⟩ := res
    rw [ha] at h
    dsimp only at h
    simp only [Except.ok.injEq] at h
    rw [← h]
    exact canonicalize_args_mono m c.args ((args', cs), m') ha i w hw

/-- A cache hit established before canonicalizing a constraint list still
holds afterwards. -/
theorem canonicalize_constraints_mono :
    ∀ (m : DgpCanonMethods) (cs : List Constr)
      (r : (List Constr × List Constr) × DgpCanonMethods),
      canonicalize_constraints m cs = Except.ok r →
      ∀ (i : Nat) (w : VarData), lookupVar m.variables_ i = some w →
        lookupVar (r.2).variables_ i = some w
  | m, [], r, h, i, w, hw => by
    simp only [canonicalize_constraints, Except.ok.injEq] at h
    rw [← h]
    exact hw
  | m, c0 :: cs, r, h, i, w, hw => by
    rw [canonicalize_constraints] at h
    cases hc0 : canonicalize_constraint m c0 with
    | error e0 => rw [hc0] at h; exact Except.noConfusion h
    | ok res1 =>
      obtain ⟨⟨c0', extra⟩, m'⟩ := res1
      rw [hc0] at h
      dsimp only at h
      cases hcs : canonicalize_constraints m' cs with
      | error e0 => rw [hcs] at h; exact Except.noConfusion h
      | ok res2 =>
        obtain ⟨⟨cs', extra'⟩, m''⟩ := res2
        rw [hcs] at h
        dsimp only at h
        simp only [Except.ok.injEq] at h
        rw [← h]
        exact canonicalize_constraints_mono m' cs ((cs', extra'), m'') hcs i w
          (canonicalize_constraint_mono m c0 ((c0', extra), m') hc0 i w hw)

/-- Constraint canonicalization contributes no extra constraints. -/
theorem canonicalize_constraint_extras (m : DgpCanonMethods) (c : Constr)
    (r : (Constr × List Constr) × DgpCanonMethods)
    (h : canonicalize_constraint m c = Except.ok r) : r.1.2 = [] := by
  unfold canonicalize_constraint at h
  cases ha : canonicalize_args m c.args with
  | error e0 => rw [ha] at h; exact Except.noConfusion h
  | ok res =>
    obtain ⟨⟨args', cs⟩, m'⟩ := res
    rw [ha] at h
    dsimp only at h
    simp only [Except.ok.injEq] at h
    rw [← h]
    exact canonicalize_args_extras m c.args ((args', cs), m') ha

/-- Constraint-list canonicalization contributes no extra constraints. -/
theorem canonicalize_constraints_extras :
    ∀ (m : DgpCanonMethods) (cs : List Constr)
      (r : (List Constr × List Constr) × DgpCanonMethods),
      canonicalize_constraints m cs = Except.ok r → r.1.2 = []
  | m, [], r, h => by
    simp only [canonicalize_constraints, Except.ok.injEq] at h
    rw [← h]
  | m, c0 :: cs, r, h => by
    rw [canonicalize_constraints] at h
    cases hc0 : canonicalize_constraint m c0 with
    | error e0 => rw [hc0] at h; exact Except.noConfusion h
    | ok res1 =>
      obtain ⟨⟨c0', extra⟩, m'⟩ := res1
      rw [hc0] at h
      dsimp only at h
      cases hcs : canonicalize_constraints m' cs with
      | error e0 => rw [hcs] at h; exact Except.noConfusion h
      | ok res2 =>
        obtain ⟨⟨cs', extra'⟩, m''⟩ := res2
        rw [hcs] at h
        dsimp only at h
        simp only [Except.ok.injEq] at h
        rw [← h]
        have h1 : extra = [] := canonicalize_constraint_extras m c0 ((c0', extra), m') hc0
        have h2 : extra' = [] := canonicalize_constraints_extras m' cs ((cs', extra'), m'') hcs
        dsimp only
        rw [h1, h2]
        rfl

/-- Canonicalizing a two-argument constraint keeps the cache well-formed,
and every variable leaf anywhere in the rewritten constraint (arguments
and both operands) is the cache's entry for its identifier. -/
theorem canonicalize_constraint_vars (m : DgpCanonMethods) (c : Constr)
    (r : (Constr × List Constr) × DgpCanonMethods)
    (h : canonicalize_constraint m c = Except.ok r) (hwf : cacheWF m.variables_)
    (hlen : c.args.length = 2) :
    cacheWF (r.2).variables_ ∧
    ∀ w ∈ constrVars r.1.1, lookupVar (r.2).variables_ w.id = some w := by
  unfold canonicalize_constraint at h
  cases ha : canonicalize_args m c.args with
  | error e0 => rw [ha] at h; exact Except.noConfusion h
  | ok res =>
    obtain ⟨⟨args', cs⟩, m'⟩ := res
    rw [ha] at h
    dsimp only at h
    simp only [Except.ok.injEq] at h
    have hv := canonicalize_args_vars m c.args ((args', cs), m') ha hwf
    have hle : args'.length = 2 := by
      have := canonicalize_args_length m c.args ((args', cs), m') ha
      dsimp only at this
      rw [this]
      exact hlen
    rw [← h]
    refine ⟨hv.1, ?_⟩
    rcases args' with _ | ⟨a, _ | ⟨b, _ | ⟨c2, rest⟩⟩⟩
    · simp only [List.length_nil] at hle
      omega
    · simp only [List.length_cons, List.length_nil] at hle
      omega
    · intro w hw
      apply hv.2
      simp only [constrVars, varsInList, List.getD_cons_zero, List.getD_cons_succ,
        List.append_nil, List.mem_append] at hw ⊢
      tauto
    · simp only [List.length_cons] at hle
      omega

/-- Canonicalizing a list of two-argument constraints keeps the cache
well-formed, and every variable leaf of every rewritten constraint is the
cache's entry for its identifier in the final state. -/
theorem canonicalize_constraints_vars :
    ∀ (m : DgpCanonMethods) (cs : List Constr)
      (r : (List Constr × List Constr) × DgpCanonMethods),
      canonicalize_constraints m cs = Except.ok r →
      cacheWF m.variables_ →
      (∀ c ∈ cs, c.args.length = 2) →
      cacheWF (r.2).variables_ ∧
      ∀ c' ∈ r.1.1, ∀ w ∈ constrVars c', lookupVar (r.2).variables_ w.id = some w
  | m, [], r, h, hwf, _ => by
    simp only [canonicalize_constraints, Except.ok.injEq] at h
    rw [← h]
    exact ⟨hwf, by intro c' hc'; simp at hc'⟩
  | m, c0 :: cs, r, h, hwf, hlen => by
    rw [canonicalize_constraints] at h
    cases hc0 : canonicalize_constraint m c0 with
    | error e0 => rw [hc0] at h; exact Except.noConfusion h
    | ok res1 =>
      obtain ⟨⟨c0', extra⟩, m'⟩ := res1
      rw [hc0] at h
      dsimp only at h
      cases hcs : canonicalize_constraints m' cs with
      | error e0 => rw [hcs] at h; exact Except.noConfusion h
      | ok res2 =>
        obtain ⟨⟨cs', extra'⟩, m''⟩ := res2
        rw [hcs] at h
        dsimp only at h
        simp only [Except.ok.injEq] at h
        have h1 := canonicalize_constraint_vars m c0 ((c0', extra), m') hc0 hwf
          (hlen c0 (List.mem_cons_self c0 cs))
        have h2 := canonicalize_constraints_vars m' cs ((cs', extra'), m'') hcs h1.1
          (fun c hc => hlen c (List.mem_cons_of_mem c0 hc))
        rw [← h]
        refine ⟨h2.1, ?_⟩
        intro c' hc' w hw
        dsimp only at hc'
        rcases List.mem_cons.mp hc' with rfl | hc'
        · exact canonicalize_constraints_mono m' cs ((cs', extra'), m'') hcs w.id w
            (h1.2 w hw)
        · exact h2.2 c' hc' w hw

/-- After a successful engine run over a problem whose constraints all
carry two-element argument lists, every variable leaf anywhere in the
rewritten problem is the final cache's entry for its identifier. -/
theorem applyEngine_vars (m : DgpCanonMethods) (p : Problem)
    (r : (Problem × List Nat) × DgpCanonMethods)
    (h : Canonicalization.applyEngine m p = Except.ok r)
    (hwf : cacheWF m.variables_)
    (hlen : ∀ c ∈ p.constraints, c.args.length = 2) :
    ∀ w ∈ problemVars r.1.1, lookupVar (r.2).variables_ w.id = some w := by
  unfold Canonicalization.applyEngine at h
  cases ho : canonicalize_tree m p.objective with
  | error e0 => rw [ho] at h; exact Except.noConfusion h
  | ok res1 =>
    obtain ⟨⟨obj', objCs⟩, m1⟩ := res1
    rw [ho] at h
    dsimp only at h
    cases hcs : canonicalize_constraints m1 p.constraints with
    | error e0 => rw [hcs] at h; exact Except.noConfusion h
    | ok res2 =>
      obtain ⟨⟨cs', extra⟩, m2⟩ := res2
      rw [hcs] at h
      dsimp only at h
      simp only [Except.ok.injEq] at h
      have hov := canonicalize_tree_vars m p.objective ((obj', objCs), m1) ho hwf
      have hcv := canonicalize_constraints_vars m1 p.constraints ((cs', extra), m2)
        hcs hov.1 hlen
      have hobjCs : objCs = [] :=
        canonicalize_tree_extras m p.objective ((obj', objCs), m1) ho
      have hextra : extra = [] :=
        canonicalize_constraints_extras m1 p.constraints ((cs', extra), m2) hcs
      rw [← h]
      intro w hw
      simp only [problemVars, hobjCs, hextra, List.append_nil, List.mem_append] at hw
      rcases hw with hw | hw
      · exact canonicalize_constraints_mono m1 p.constraints ((cs', extra), m2) hcs
          w.id w (hov.2 w hw)
      · simp only [List.mem_flatten, List.mem_map] at hw
        obtain ⟨l, ⟨c', hc', rfl⟩, hwl⟩ := hw
        exact hcv.2 c' hc' w hwl

end WholeProblemLemmas

section MoreHelpers

/-- Removing an already-absent transient attribute is the identity. -/
theorem constr_eta (c : Constr) (h : c.old_args = none) :
    ({ c with old_args := none } : Constr) = c := by
  cases c
  simp only at h
  rw [h]

/-- Looking the same identifier up twice through `variable_canon` returns
the first call's log-space variable again and leaves the state unchanged. -/
theorem variable_canon_idem (m : DgpCanonMethods) (v₁ v₂ : VarData)
    (h : v₁.id = v₂.id) :
    DgpCanonMethods.variable_canon ((DgpCanonMethods.variable_canon m v₁).2) v₂ =
      (((DgpCanonMethods.variable_canon m v₁).1.1, []),
       (DgpCanonMethods.variable_canon m v₁).2) := by
  cases hl : lookupVar m.variables_ v₁.id with
  | some u =>
    have h1 : DgpCanonMethods.variable_canon m v₁ = ((u, []), m) := by
      unfold DgpCanonMethods.variable_canon
      simp [hl]
    rw [h1]
    unfold DgpCanonMethods.variable_canon
    rw [← h, hl]
  | none =>
    have h1 : DgpCanonMethods.variable_canon m v₁ =
        ((({ id := v₁.id, shape := v₁.shape, pos := false } : VarData), []),
         { m with variables_ := m.variables_ ++
            [(v₁.id, { id := v₁.id, shape := v₁.shape, pos := false })] }) := by
      unfold DgpCanonMethods.variable_canon
      simp [hl]
    rw [h1]
    unfold DgpCanonMethods.variable_canon
    have h2 : lookupVar (m.variables_ ++
        [(v₁.id, ({ id := v₁.id, shape := v₁.shape, pos := false } : VarData))]) v₂.id =
        some { id := v₁.id, shape := v₁.shape, pos := false } := by
      rw [← h]
      exact lookupVar_append_right _ _ _ hl
    rw [h2]

/-- After a canonicalization walk starting from the fresh instance, any
two variable leaves of the rewritten expression carrying the same
identifier are the same variable. -/
theorem canonicalize_tree_consistent (e : Expr)
    (r : (Expr × List Constr) × DgpCanonMethods)
    (h : canonicalize_tree DgpCanonMethodsInit e = Except.ok r) :
    ∀ w₁, w₁ ∈ varsIn r.1.1 → ∀ w₂, w₂ ∈ varsIn r.1.1 → w₁.id = w₂.id → w₁ = w₂ := by
  intro w₁ h₁ w₂ h₂ hid
  have hv := canonicalize_tree_vars DgpCanonMethodsInit e r h cacheWF_nil
  have l₁ := hv.2 w₁ h₁
  have l₂ := hv.2 w₂ h₂
  rw [hid] at l₁
  rw [l₁] at l₂
  exact Option.some.inj l₂

end MoreHelpers

section FinalClaims

/-- C1 (corrected): on every normal return of `apply`, each constraint of
the original problem ends with its original argument list and without the
transient attribute; and a problem whose constraints carried no transient
attribute is restored exactly.  (The claim's further assertion — that this
restoration also happens when the engine raises — is refuted by
`claim_C1_counterexample`.) -/
theorem claim_C1 (p : Problem) (r : Problem × InverseData)
    (h : (Gp2Dcp.apply p).1 = Except.ok r) :
    ((Gp2Dcp.apply p).2).constraints =
      p.constraints.map (fun c => { c with old_args := none }) ∧
    ((∀ c ∈ p.constraints, c.old_args = none) → (Gp2Dcp.apply p).2 = p) := by
  by_cases hacc : Gp2Dcp.accepts p = true
  · cases hE : Canonicalization.applyEngine DgpCanonMethodsInit
        { p with constraints := p.constraints.map Gp2Dcp.swapConstr } with
    | error e =>
      rw [apply_error_state p hacc e hE] at h
      exact Except.noConfusion h
    | ok res =>
      obtain ⟨⟨q, ids⟩, m'⟩ := res
      have happ := apply_ok_state p hacc q ids m' hE
      rw [happ]
      constructor
      · simp [List.map_map, Function.comp_def, restore_swap]
      · intro hall
        have hmap : (p.constraints.map Gp2Dcp.swapConstr).map Gp2Dcp.restoreConstr =
            p.constraints := by
          rw [List.map_map]
          conv_rhs => rw [← List.map_id p.constraints]
          refine List.map_congr_left ?_
          intro c hc
          have := restore_swap c
          rw [Function.comp_apply, this, constr_eta c (hall c hc)]
          rfl
        show ({ p with constraints :=
            (p.constraints.map Gp2Dcp.swapConstr).map Gp2Dcp.restoreConstr } : Problem) = p
        rw [hmap]
  · exfalso
    have hfalse : Gp2Dcp.accepts p = false := by
      cases hb : Gp2Dcp.accepts p
      · rfl
      · exact absurd hb hacc
    have : Gp2Dcp.apply p = (Except.error ApplyError.disciplineViolation, p) := by
      simp [Gp2Dcp.apply, hfalse]
    rw [this] at h
    exact Except.noConfusion h

/-- Witness for the amended C1 on a concrete well-supported problem. -/
theorem claim_C1_witness : (Gp2Dcp.apply okProblem).2 = okProblem :=
  (claim_C1 okProblem _ rfl).2 (by
    intro c hc
    simp only [okProblem, List.mem_singleton] at hc
    subst hc
    rfl)

/-- Counterexample to C1 as stated: on `badObjectiveProblem` the engine
raises the unsupported-atom-kind error, and after `apply` raises, the
constraint's argument list is the transient two-element `[lhs, rhs]` form
rather than the original one-element default form, and the residual
`_old_args` attribute is still set. -/
theorem claim_C1_counterexample :
    (Gp2Dcp.apply badObjectiveProblem).1 =
      Except.error (ApplyError.engine (CanonError.unsupportedAtomKind Kind.sum_smallest)) ∧
    (Gp2Dcp.apply badObjectiveProblem).2.constraints.map (fun c => c.args.length) = [2] ∧
    badObjectiveProblem.constraints.map (fun c => c.args.length) = [1] ∧
    (Gp2Dcp.apply badObjectiveProblem).2.constraints.map (fun c => c.old_args.isSome) =
      [true] ∧
    badObjectiveProblem.constraints.map (fun c => c.old_args.isSome) = [false] :=
  ⟨rfl, rfl, rfl, rfl, rfl⟩

/-- C2: the substitution cache is consistent — looking the same original
variable identifier up twice through `variable_canon` returns the same
log-space variable both times and leaves the cache unchanged; and
consequently, after any successful `apply`, any two variable leaves
carrying the same identifier anywhere in the rewritten problem — in the
objective or in any constraint, across different expressions — are the
same log-space variable. -/
theorem claim_C2 :
    (∀ (m : DgpCanonMethods) (v₁ v₂ : VarData), v₁.id = v₂.id →
      DgpCanonMethods.variable_canon ((DgpCanonMethods.variable_canon m v₁).2) v₂ =
        (((DgpCanonMethods.variable_canon m v₁).1.1, []),
         (DgpCanonMethods.variable_canon m v₁).2)) ∧
    (∀ (p q : Problem) (inverse_data : InverseData) (pAfter : Problem),
      Gp2Dcp.apply p = (Except.ok (q, inverse_data), pAfter) →
      ∀ w₁, w₁ ∈ problemVars q → ∀ w₂, w₂ ∈ problemVars q →
        w₁.id = w₂.id → w₁ = w₂) := by
  refine ⟨variable_canon_idem, ?_⟩
  intro p q inverse_data pAfter happly w₁ h₁ w₂ h₂ hid
  by_cases hacc : Gp2Dcp.accepts p = true
  · cases hE : Canonicalization.applyEngine DgpCanonMethodsInit
        { p with constraints := p.constraints.map Gp2Dcp.swapConstr } with
    | error e =>
      rw [apply_error_state p hacc e hE] at happly
      simp at happly
    | ok res =>
      obtain ⟨⟨q₀, ids⟩, m'⟩ := res
      rw [apply_ok_state p hacc q₀ ids m' hE] at happly
      simp only [Prod.mk.injEq, Except.ok.injEq] at happly
      obtain ⟨⟨hq, hinv⟩, hpa⟩ := happly
      rw [← hq] at h₁ h₂
      have hlen : ∀ c ∈ p.constraints.map Gp2Dcp.swapConstr, c.args.length = 2 := by
        intro c hc
        obtain ⟨c₀, hc₀, rfl⟩ := List.mem_map.mp hc
        rfl
      have hvars := applyEngine_vars DgpCanonMethodsInit
        { p with constraints := p.constraints.map Gp2Dcp.swapConstr }
        ((q₀, ids), m') hE cacheWF_nil hlen
      have l₁ := hvars w₁ h₁
      have l₂ := hvars w₂ h₂
      rw [hid] at l₁
      rw [l₁] at l₂
      exact Option.some.inj l₂
  · exfalso
    have hfalse : Gp2Dcp.accepts p = false := by
      cases hb : Gp2Dcp.accepts p
      · rfl
      · exact absurd hb hacc
    have happ : Gp2Dcp.apply p = (Except.error ApplyError.disciplineViolation, p) := by
      simp [Gp2Dcp.apply, hfalse]
    rw [happ] at happly
    simp at happly

/-- Witness for C2: the second lookup of identifier 7 returns the variable
minted by the first, and after `apply` on a concrete problem referencing
variable 1 both in the objective and in a constraint, the occurrence in
the rewritten objective and the occurrence in the rewritten constraint
are the same log-space variable. -/
theorem claim_C2_witness :
    (DgpCanonMethods.variable_canon
        ((DgpCanonMethods.variable_canon DgpCanonMethodsInit
            { id := 7, shape := [2], pos := true }).2)
        { id := 7, shape := [2], pos := true } =
      ((({ id := 7, shape := [2], pos := false } : VarData), []),
       { dictEntries := [],
         variables_ := [(7, { id := 7, shape := [2], pos := false })] })) ∧
    ({ id := 1, shape := [], pos := false } : VarData) =
      { id := 1, shape := [], pos := false } :=
  ⟨claim_C2.1 DgpCanonMethodsInit
      { id := 7, shape := [2], pos := true } { id := 7, shape := [2], pos := true } rfl,
   claim_C2.2 okProblem _ _ _ rfl
      { id := 1, shape := [], pos := false } (by decide)
      { id := 1, shape := [], pos := false } (by decide) rfl⟩

/-- C6: lookup of a kind absent from the static table (other than the
Variable kind) fails with the unsupported-atom-kind error, and a DGP
problem containing such a kind makes the whole `apply` fail with an
unsupported-atom-kind engine error — no rewritten problem is produced. -/
theorem claim_C6 :
    (∀ (m : DgpCanonMethods) (k : Kind), k ≠ Kind.var → CANON_METHODS k = none →
      m.getitem k = Except.error (CanonError.unsupportedAtomKind k)) ∧
    (∀ (p : Problem) (k : Kind), Gp2Dcp.accepts p = true → k ∈ problemKinds p →
      k ≠ Kind.var → CANON_METHODS k = none →
      ∃ k', Gp2Dcp.apply p =
        (Except.error (ApplyError.engine (CanonError.unsupportedAtomKind k')),
         { p with constraints := p.constraints.map Gp2Dcp.swapConstr })) := by
  refine ⟨getitem_absent, ?_⟩
  intro p k hacc hk hkvar habsent
  cases hE : Canonicalization.applyEngine DgpCanonMethodsInit
      { p with constraints := p.constraints.map Gp2Dcp.swapConstr } with
  | error e =>
    obtain ⟨k', hk'⟩ := applyEngine_error_kind _ _ _ hE
    refine ⟨k', ?_⟩
    rw [apply_error_state p hacc e hE, hk']
  | ok res =>
    exfalso
    obtain ⟨⟨q, ids⟩, m'⟩ := res
    have hsup := applyEngine_supported _ _ _ hE
    have habsent' : ¬ (k = Kind.var ∨ (CANON_METHODS k).isSome) := by
      intro hor
      rcases hor with h1 | h1
      · exact hkvar h1
      · rw [habsent] at h1; simp at h1
    rw [problemKinds, List.mem_append] at hk
    rcases hk with hk | hk
    · exact habsent' (hsup.1 k hk)
    · simp only [List.mem_flatten, List.mem_map] at hk
      obtain ⟨l, ⟨c, hc, rfl⟩, hkl⟩ := hk
      have hcs := hsup.2 (Gp2Dcp.swapConstr c) (List.mem_map_of_mem _ hc)
      have hkin : k ∈ kindsInList (Gp2Dcp.swapConstr c).args := by
        have hargs : (Gp2Dcp.swapConstr c).args = [c.lhs, c.rhs] := rfl
        rw [hargs]
        simp only [kindsInList, List.append_nil, List.mem_append]
        rw [List.mem_append] at hkl
        exact hkl
      exact habsent' (hcs k hkin)

/-- Witness for C6: the minimum kind raises on direct lookup, and
`apply` on a problem whose constraint mentions the minimum atom fails
with an unsupported-atom-kind engine error. -/
theorem claim_C6_witness :
    (DgpCanonMethods.getitem DgpCanonMethodsInit Kind.minimum =
      Except.error (CanonError.unsupportedAtomKind Kind.minimum)) ∧
    (∃ k', Gp2Dcp.apply badConstraintProblem =
      (Except.error (ApplyError.engine (CanonError.unsupportedAtomKind k')),
       { badConstraintProblem with constraints :=
          badConstraintProblem.constraints.map Gp2Dcp.swapConstr })) :=
  ⟨claim_C6.1 DgpCanonMethodsInit Kind.minimum (by decide) rfl,
   claim_C6.2 badConstraintProblem Kind.minimum rfl (by decide) (by decide) rfl⟩

end FinalClaims
